import Mathlib

/-!
A verification development for the filter evaluator of the milli search
engine: the AST of filter conditions, its negation normalizer, the
hierarchical numeric-range descent over the facet pyramid, the leaf operator
evaluator and the boolean composer, together with the AST builder helpers
(`field_id`, `equal`, `geo_radius`).

Facet values (`f64` in the source) are modelled as rationals: the evaluator
only ever compares them, and `ℚ` carries the dense total order the code
relies on. Bitmaps (`RoaringBitmap`) are modelled as `Finset ℕ`.
-/

namespace Milli

/-- Facet interval bounds as used by the number-range descent:
`std::ops::Bound` restricted to the two constructors this code produces. -/
inductive Bound where
  | included (v : ℚ)
  | excluded (v : ℚ)
deriving DecidableEq

/-- One entry of the numeric facet pyramid `facet_id_f64_docids`: the key is
`(field id, level, low, high)` and the value a bitmap of document ids. -/
structure NumEntry where
  fid : ℕ
  level : ℕ
  low : ℚ
  high : ℚ
  docids : Finset ℕ
deriving DecidableEq

/-- Strict lexicographic order on pyramid keys `(fid, level, low, high)`:
the key order of the underlying ordered key-value store. -/
def keyLt (a b : NumEntry) : Prop :=
  a.fid < b.fid ∨ (a.fid = b.fid ∧ (a.level < b.level ∨ (a.level = b.level ∧
    (a.low < b.low ∨ (a.low = b.low ∧ a.high < b.high)))))

instance (a b : NumEntry) : Decidable (keyLt a b) := by
  unfold keyLt; infer_instance

/-- Does the value `x` satisfy a left (lower) interval bound? -/
def Bound.leftSat : Bound → ℚ → Bool
  | .included l, x => decide (l ≤ x)
  | .excluded l, x => decide (l < x)

/-- Does the value `x` satisfy a right (upper) interval bound? -/
def Bound.rightSat : Bound → ℚ → Bool
  | .included r, x => decide (x ≤ r)
  | .excluded r, x => decide (x < r)

/-- Modelled from the spec: `FacetNumberRange` (spec sections 4.D and 6) is an
external collaborator whose source is not among the files under review. It
iterates, in ascending key order, the pyramid entries at `(field_id, level)`
that lie inside the requested interval: the entry's `low` satisfies the `left`
bound and its `high` satisfies the `right` bound. The database list is kept in
key order, so a filter models the iterator. -/
def facetNumberRange (db : List NumEntry) (field_id level : ℕ)
    (left right : Bound) : List NumEntry :=
  db.filter fun e =>
    e.fid == field_id && e.level == level && left.leftSat e.low && right.rightSat e.high

/-- Union of the bitmaps of a list of pyramid entries, as accumulated by the
iteration loop (`*output |= docids`) starting from an empty bitmap. -/
def listUnion (l : List NumEntry) : Finset ℕ :=
  l.foldl (fun acc e => acc ∪ e.docids) ∅

/-- Guard of the first arm of the bound match in
`explore_facet_number_levels`: an exact-value request `Included l = Included r`. -/
def exactMatch : Bound → Bound → Bool
  | .included l, .included r => decide (l = r)
  | _, _ => false

/-- The four empty-interval guards of the bound match in
`explore_facet_number_levels`, in the source's order. -/
def emptyInterval : Bound → Bound → Bool
  | .included l, .included r => decide (l > r)
  | .included l, .excluded r => decide (l ≥ r)
  | .excluded l, .excluded r => decide (l ≥ r)
  | .excluded l, .included r => decide (l ≥ r)

/-- The hierarchical numeric-range descent
`FilterCondition::explore_facet_number_levels`: absorb every bucket of the
current level inside the interval, then refine the two uncovered fringes one
level deeper (or the whole interval when no bucket matched). -/
def explore_facet_number_levels (db : List NumEntry) (field_id : ℕ)
    (level : ℕ) (left right : Bound) (output : Finset ℕ) : Finset ℕ :=
  if h : exactMatch left right = true ∧ 0 < level then
    explore_facet_number_levels db field_id 0 left right output
  else if emptyInterval left right then output
  else
    let found := facetNumberRange db field_id level left right
    let output1 := found.foldl (fun acc e => acc ∪ e.docids) output
    match level with
    | 0 => output1
    | deeper + 1 =>
      match found.head?, found.getLast? with
      | some first, some last =>
        let output2 :=
          if left ≠ Bound.included first.low then
            explore_facet_number_levels db field_id deeper left
              (.excluded first.low) output1
          else output1
        if right ≠ Bound.included last.high then
          explore_facet_number_levels db field_id deeper
            (.excluded last.high) right output2
        else output2
      | _, _ => explore_facet_number_levels db field_id deeper left right output1
termination_by level
decreasing_by
  · exact h.2
  · exact Nat.lt_succ_self deeper
  · exact Nat.lt_succ_self deeper
  · exact Nat.lt_succ_self deeper

/-- One entry of the string facet store `facet_id_string_docids`: the key is
`(field id, lowercased string)` and the value `(original string, bitmap)`. -/
structure StrEntry where
  fid : ℕ
  key : String
  original : String
  docids : Finset ℕ
deriving DecidableEq

/-- One point of the geo R-tree: a position and the document id it carries. -/
structure GeoPoint where
  lat : ℚ
  lng : ℚ
  data : ℕ
deriving DecidableEq

/-- The slice of `Index` that the filter evaluator reads. `geoRtree` and
`dist` are modelled from the spec (section 6): the R-tree is consumed only
through its nearest-neighbor iterator, modelled as the sequence of points it
yields from a base point, and `distance_between_two_points` is an external
great-circle distance, modelled as an abstract distance function. -/
structure Index where
  numbersDb : List NumEntry
  stringsDb : List StrEntry
  numberFaceted : ℕ → Finset ℕ
  stringFaceted : ℕ → Finset ℕ
  geoRtree : Option ((ℚ × ℚ) → List GeoPoint)
  geoFaceted : Finset ℕ
  dist : ℚ × ℚ → ℚ × ℚ → ℚ

/-- The leaf operators of the filter AST. -/
inductive Operator where
  | GreaterThan (n : ℚ)
  | GreaterThanOrEqual (n : ℚ)
  | Equal (n : Option ℚ) (s : String)
  | NotEqual (n : Option ℚ) (s : String)
  | Includes (n : Option ℚ) (s : String)
  | NotIncludes (n : Option ℚ) (s : String)
  | LowerThan (n : ℚ)
  | LowerThanOrEqual (n : ℚ)
  | Between (n m : ℚ)
  | GeoLowerThan (p : ℚ × ℚ) (d : ℚ)
  | GeoGreaterThan (p : ℚ × ℚ) (d : ℚ)
deriving DecidableEq

/-- The filter condition AST. -/
inductive FilterCondition where
  | Operator (fid : ℕ) (op : Milli.Operator)
  | Or (l r : FilterCondition)
  | And (l r : FilterCondition)
  | Empty
deriving DecidableEq

/-- `Operator::negate`: returns a second operator exactly for `Between`,
which negates to the pair `(LowerThan lo, GreaterThan hi)`. -/
def Operator.negate : Operator → Operator × Option Operator
  | .GreaterThan n => (.LowerThanOrEqual n, none)
  | .GreaterThanOrEqual n => (.LowerThan n, none)
  | .Equal n s => (.NotEqual n s, none)
  | .NotEqual n s => (.Equal n s, none)
  | .Includes n s => (.NotIncludes n s, none)
  | .NotIncludes n s => (.Includes n s, none)
  | .LowerThan n => (.GreaterThanOrEqual n, none)
  | .LowerThanOrEqual n => (.GreaterThan n, none)
  | .Between n m => (.LowerThan n, some (.GreaterThan m))
  | .GeoLowerThan p d => (.GeoGreaterThan p d, none)
  | .GeoGreaterThan p d => (.GeoLowerThan p d, none)

/-- `FilterCondition::negate`: push negation down through the tree. -/
def FilterCondition.negate : FilterCondition → FilterCondition
  | .Operator fid op =>
    match op.negate with
    | (a, none) => .Operator fid a
    | (a, some b) => .Or (.Operator fid a) (.Operator fid b)
  | .Or a b => .And a.negate b.negate
  | .And a b => .Or a.negate b.negate
  | .Empty => .Empty

/-- Is this leaf operator a `Between`? -/
def Operator.isBetween : Operator → Bool
  | .Between _ _ => true
  | _ => false

/-- Does the AST contain no `Between` leaf? -/
def FilterCondition.betweenFree : FilterCondition → Bool
  | .Operator _ op => !op.isBetween
  | .Or a b => a.betweenFree && b.betweenFree
  | .And a b => a.betweenFree && b.betweenFree
  | .Empty => true

/-- Executable infix test on character lists; `listIsInfix n h` holds when
`n` occurs contiguously inside `h`. -/
def listIsInfix (needle : List Char) : List Char → Bool
  | [] => needle.isEmpty
  | c :: rest => needle.isPrefixOf (c :: rest) || listIsInfix needle rest

/-- Substring test mirroring Rust `str::contains`: does `hay` contain
`needle`? -/
def strContains (hay needle : String) : Bool :=
  listIsInfix needle.toList hay.toList

/-- Rust `str::to_lowercase`, modelled as a character-wise lowercase map
(stated structurally over the character list). -/
def strToLower (s : String) : String :=
  ⟨s.data.map Char.toLower⟩

/-- The `Includes` arm of `evaluate_operator`: a linear scan over the whole
string facet store, unioning the bitmap of every entry whose key string
contains the (re-lowercased) needle. The entry's field id is never consulted. -/
def includesScan (idx : Index) (val : String) : Finset ℕ :=
  idx.stringsDb.foldl
    (fun acc e => if strContains e.key (strToLower val) then acc ∪ e.docids else acc) ∅

/-- The `NotIncludes` arm of `evaluate_operator`: the same linear scan,
selecting the entries whose key string does not contain the needle. -/
def notIncludesScan (idx : Index) (val : String) : Finset ℕ :=
  idx.stringsDb.foldl
    (fun acc e => if strContains e.key (strToLower val) then acc else acc ∪ e.docids) ∅

/-- `strings_db.get(rtxn, &(field_id, &string))` with `unwrap_or_default`:
the bitmap stored under one `(field id, string)` key, or the empty bitmap. -/
def stringGet (idx : Index) (field_id : ℕ) (s : String) : Finset ℕ :=
  ((idx.stringsDb.find? fun e => e.fid == field_id && e.key == s).map
    StrEntry.docids).getD ∅

/-- The `Equal` arm of `evaluate_operator`: the string lookup unioned with an
exact-value descent (invoked directly at level 0) when the numeric parse
succeeded. -/
def equalEval (idx : Index) (field_id : ℕ) (number : Option ℚ)
    (string : String) : Finset ℕ :=
  stringGet idx field_id string ∪
    match number with
    | some n =>
      explore_facet_number_levels idx.numbersDb field_id 0
        (.included n) (.included n) ∅
    | none => ∅

/-- `f64::MAX`, the greatest finite double, as a rational. -/
def f64Max : ℚ := 2 ^ 1024 - 2 ^ 971

/-- `f64::MIN`, the least finite double, as a rational. -/
def f64Min : ℚ := -f64Max

/-- The discovery of the top-most pyramid level for a field: the greatest
stored key `≤ (field_id, u8::MAX, f64::MAX, f64::MAX)` is the last stored key
whose field id is at most `field_id`; its level is used only when its field id
matches exactly. -/
def biggestLevel (db : List NumEntry) (field_id : ℕ) : Option ℕ :=
  match (db.filter fun e => decide (e.fid ≤ field_id)).getLast? with
  | some e => if e.fid = field_id then some e.level else none
  | none => none

/-- The shared tail of the comparison arms of `evaluate_operator`: descend on
`(left, right)` from the field's top-most level, or return the empty bitmap
when the field has no numeric entry at all. -/
def rangeDocids (idx : Index) (field_id : ℕ) (left right : Bound) : Finset ℕ :=
  match biggestLevel idx.numbersDb field_id with
  | some level =>
    explore_facet_number_levels idx.numbersDb field_id level left right ∅
  | none => ∅

/-- The `GeoLowerThan` arm of `evaluate_operator`: walk the nearest-neighbor
iterator from the base point, take points while their distance is strictly
below the radius, and collect their document ids. -/
def geoLowerEval (idx : Index) (base_point : ℚ × ℚ) (distance : ℚ) : Finset ℕ :=
  match idx.geoRtree with
  | none => ∅
  | some nn =>
    (((nn base_point).takeWhile fun p =>
        decide (idx.dist base_point (p.lat, p.lng) < distance)).map
      GeoPoint.data).toFinset

/-- `FilterCondition::evaluate_operator`: evaluate one leaf operator to a
bitmap. The recursive calls of the source (`NotEqual` on `Equal`,
`GeoGreaterThan` on `GeoLowerThan`) are expressed through the shared helpers
`equalEval` and `geoLowerEval`. -/
def evaluate_operator (idx : Index) (field_id : ℕ) : Operator → Finset ℕ
  | .GreaterThan v => rangeDocids idx field_id (.excluded v) (.included f64Max)
  | .GreaterThanOrEqual v => rangeDocids idx field_id (.included v) (.included f64Max)
  | .NotIncludes _ v => notIncludesScan idx v
  | .Includes _ v => includesScan idx v
  | .Equal n s => equalEval idx field_id n s
  | .NotEqual n s =>
    ((if n.isSome then idx.numberFaceted field_id else ∅) ∪
        idx.stringFaceted field_id) \
      equalEval idx field_id n s
  | .LowerThan v => rangeDocids idx field_id (.included f64Min) (.excluded v)
  | .LowerThanOrEqual v => rangeDocids idx field_id (.included f64Min) (.included v)
  | .Between l r => rangeDocids idx field_id (.included l) (.included r)
  | .GeoLowerThan p d => geoLowerEval idx p d
  | .GeoGreaterThan p d => idx.geoFaceted \ geoLowerEval idx p d

/-- `FilterCondition::evaluate`: the boolean composer. -/
def FilterCondition.evaluate (idx : Index) : FilterCondition → Finset ℕ
  | .Operator fid op => evaluate_operator idx fid op
  | .Or l r => l.evaluate idx ∪ r.evaluate idx
  | .And l r => l.evaluate idx ∩ r.evaluate idx
  | .Empty => ∅

/-- The error type of the AST builder (`FilterError`), with pest syntax
errors reduced to their message and the span they point at (spans are
modelled as opaque numbers). -/
inductive FError where
  | syntaxErr (message : String) (span : ℕ)
  | invalidAttribute (field : String) (valid_fields : List String)
  | reservedKeyword (field : String) (context : Option String)
deriving DecidableEq

/-- Modelled from the spec: the lexer (outside the sources under review)
classifies the key token of a leaf condition either as the `reserved` rule
(for `_geo`, `_geoPoint...`, `_geoDistance`) or as an ordinary value. -/
inductive KeyRule where
  | reserved
  | value
deriving DecidableEq

/-- A key token of a leaf condition: its text and the lexer rule it matched. -/
structure KeyTok where
  str : String
  rule : KeyRule
deriving DecidableEq

/-- The hint attached to reserved-keyword errors. -/
def geoHint : String :=
  "Use the _geoRadius(latitude, longitude, distance) built-in rule to filter on _geo field coordinates."

/-- The `field_id` helper of the AST builder: reject reserved keywords, then
reject keys outside the filterable-fields set, and finally resolve the key
through the fields-ids map (which may legitimately not know it). -/
def field_id (fields_ids_map : String → Option ℕ)
    (filterable_fields : List String) (key : KeyTok) :
    Except FError (Option ℕ) :=
  if key.rule = KeyRule.reserved then
    if key.str.startsWith "_geoPoint" then
      .error (.reservedKeyword "_geoPoint" (some geoHint))
    else if key.str = "_geo" then
      .error (.reservedKeyword "_geo" (some geoHint))
    else
      .error (.reservedKeyword key.str none)
  else if key.str ∉ filterable_fields then
    .error (.invalidAttribute key.str filterable_fields)
  else
    .ok (fields_ids_map key.str)

/-- `FilterCondition::equal`, the builder of `Equal` leaves: resolve the
field, then keep the optional numeric parse of the value together with its
lowercased text. The numeric parse (`pest_parse`) happens upstream and is
passed in as `num`. -/
def FilterCondition.equal (fields_ids_map : String → Option ℕ)
    (filterable_fields : List String) (key : KeyTok) (num : Option ℚ)
    (svalue : String) : Except FError FilterCondition :=
  match field_id fields_ids_map filterable_fields key with
  | .error e => .error e
  | .ok none => .ok .Empty
  | .ok (some fid) => .ok (.Operator fid (.Equal num (strToLower svalue)))

/-- Latitude range error message of `geo_radius`. -/
def latitudeMsg : String := "Latitude must be contained between -90 and 90 degrees."

/-- Longitude range error message of `geo_radius`. -/
def longitudeMsg : String := "Longitude must be contained between -180 and 180 degrees."

/-- Arity error message of `geo_radius`. -/
def geoRadiusArityMsg : String :=
  "The _geoRadius filter expect three arguments: _geoRadius(latitude, longitude, radius)"

/-- `FilterCondition::geo_radius`: require `_geo` filterable, resolve its
field id (no id builds `Empty`), require exactly three numeric parameters,
then validate latitude and longitude ranges in that order. Each parameter
carries the span of its token; `param_span` is the span of the parenthesised
parameter list, used when there is no last parameter to point at. The pest
extraction and numeric parsing of the parameters happen upstream. -/
def FilterCondition.geo_radius (fields_ids_map : String → Option ℕ)
    (filterable_fields : List String) (parameters : List (ℚ × ℕ))
    (param_span : ℕ) : Except FError FilterCondition :=
  if "_geo" ∉ filterable_fields then
    .error (.invalidAttribute "_geo" filterable_fields)
  else
    match fields_ids_map "_geo" with
    | none => .ok .Empty
    | some fid =>
      match parameters with
      | [(lat, lat_span), (lng, lng_span), (distance, _)] =>
        if ¬(-90 ≤ lat ∧ lat ≤ 90) then
          .error (.syntaxErr latitudeMsg lat_span)
        else if ¬(-180 ≤ lng ∧ lng ≤ 180) then
          .error (.syntaxErr longitudeMsg lng_span)
        else
          .ok (.Operator fid (.GeoLowerThan (lat, lng) distance))
      | _ =>
        .error (.syntaxErr geoRadiusArityMsg
          (((parameters.map Prod.snd).getLast?).getD param_span))

/-- Modelled from the spec: the invariant of the numeric facet pyramid
(spec section 3): the store is in key order; every bucket is a nonempty
interval; level-0 buckets are exact values; buckets of one level and field are
pairwise disjoint; every bucket above level 0 exactly covers the union of the
sub-buckets of the level below that it contains; and every bucket is contained
in some bucket of the level above whenever that level is populated for the
field. -/
def GoodDB (db : List NumEntry) (fid : ℕ) : Prop :=
  db.Pairwise keyLt ∧
  (∀ e ∈ db, e.low ≤ e.high) ∧
  (∀ e ∈ db, e.level = 0 → e.low = e.high) ∧
  (∀ e ∈ db, ∀ e' ∈ db, e.fid = fid → e'.fid = fid → e.level = e'.level →
    e ≠ e' → e.high < e'.low ∨ e'.high < e.low) ∧
  (∀ e ∈ db, e.fid = fid → 0 < e.level →
    facetNumberRange db fid (e.level - 1) (.included e.low) (.included e.high) ≠ [] ∧
    e.docids =
      listUnion (facetNumberRange db fid (e.level - 1) (.included e.low) (.included e.high))) ∧
  (∀ p ∈ db, p.fid = fid → 0 < p.level →
    ∀ e ∈ db, e.fid = fid → e.level = p.level - 1 →
    ∃ b ∈ db, b.fid = fid ∧ b.level = p.level ∧ b.low ≤ e.low ∧ e.high ≤ b.high)

set_option synthInstance.maxSize 2000 in
instance (db : List NumEntry) (fid : ℕ) : Decidable (GoodDB db fid) := by
  unfold GoodDB; infer_instance

/-- Level-0 reference semantics of an interval: the union of the bitmaps of
the level-0 entries inside it. -/
def sem0 (db : List NumEntry) (fid : ℕ) (left right : Bound) : Finset ℕ :=
  listUnion (facetNumberRange db fid 0 left right)

/-- A tiny two-level pyramid over one field, used to instantiate theorems. -/
def db0 : List NumEntry :=
  [⟨0, 0, 1, 1, {1}⟩, ⟨0, 0, 2, 2, {2}⟩, ⟨0, 0, 3, 3, {3}⟩, ⟨0, 0, 4, 4, {4}⟩,
   ⟨0, 1, 1, 2, {1, 2}⟩, ⟨0, 1, 3, 4, {3, 4}⟩]

/-- An index with every store empty. -/
def emptyIndex : Index where
  numbersDb := []
  stringsDb := []
  numberFaceted := fun _ => ∅
  stringFaceted := fun _ => ∅
  geoRtree := none
  geoFaceted := ∅
  dist := fun _ _ => 0

/-- An index whose single document `1` has two string values for field `0`:
one containing `"b"` and one not. -/
def idx6 : Index :=
  { emptyIndex with
    stringsDb := [⟨0, "abc", "abc", {1}⟩, ⟨0, "xyz", "xyz", {1}⟩],
    stringFaceted := fun f => if f = 0 then {1} else ∅ }

/-- An index with a two-point geo R-tree; its distance function is given by
a finite table (1 for the far point, 0 elsewhere). -/
def idx8 : Index :=
  { emptyIndex with
    geoRtree := some fun _ => [⟨0, 0, 5⟩, ⟨1, 0, 6⟩],
    geoFaceted := {5, 6},
    dist := fun _ q => if q = (1, 0) then 1 else 0 }

/-- A fields-ids map knowing only `_geo`. -/
def fim0 : String → Option ℕ := fun s => if s = "_geo" then some 0 else none

/-- A fields-ids map knowing no field at all. -/
def fimNone : String → Option ℕ := fun _ => none


lemma listUnion_foldl (l : List NumEntry) (init : Finset ℕ) :
    l.foldl (fun acc e => acc ∪ e.docids) init = init ∪ listUnion l := by
  induction l generalizing init with
  | nil => simp [listUnion]
  | cons e t ih =>
    show List.foldl _ (init ∪ e.docids) t = _
    rw [ih (init ∪ e.docids),
      show listUnion (e :: t) = List.foldl (fun acc e => acc ∪ e.docids) (∅ ∪ e.docids) t
        from rfl,
      ih (∅ ∪ e.docids)]
    simp [Finset.union_assoc]

lemma listUnion_cons (e : NumEntry) (t : List NumEntry) :
    listUnion (e :: t) = e.docids ∪ listUnion t := by
  rw [show listUnion (e :: t) = List.foldl (fun acc e => acc ∪ e.docids) (∅ ∪ e.docids) t
      from rfl,
    listUnion_foldl]
  simp

lemma mem_listUnion {x : ℕ} : ∀ {l : List NumEntry},
    x ∈ listUnion l ↔ ∃ e ∈ l, x ∈ e.docids := by
  intro l
  induction l with
  | nil => simp [listUnion]
  | cons e t ih => rw [listUnion_cons]; simp [ih]

lemma mem_facetNumberRange {db : List NumEntry} {fid lvl : ℕ} {left right : Bound}
    {e : NumEntry} :
    e ∈ facetNumberRange db fid lvl left right ↔
      e ∈ db ∧ e.fid = fid ∧ e.level = lvl ∧
        left.leftSat e.low = true ∧ right.rightSat e.high = true := by
  simp [facetNumberRange, List.mem_filter]
  tauto

lemma leftSat_mono {b : Bound} {x y : ℚ} (h : b.leftSat x = true) (hxy : x ≤ y) :
    b.leftSat y = true := by
  cases b <;> simp [Bound.leftSat] at h ⊢ <;> linarith

lemma rightSat_anti {b : Bound} {x y : ℚ} (h : b.rightSat y = true) (hxy : x ≤ y) :
    b.rightSat x = true := by
  cases b <;> simp [Bound.rightSat] at h ⊢ <;> linarith

lemma emptyInterval_no_sat {left right : Bound} (h : emptyInterval left right = true)
    {x y : ℚ} (hl : left.leftSat x = true) (hr : right.rightSat y = true)
    (hxy : x ≤ y) : False := by
  cases left <;> cases right <;>
    simp [emptyInterval, Bound.leftSat, Bound.rightSat] at h hl hr <;> linarith

lemma sem0_of_emptyInterval {db : List NumEntry} {fid : ℕ} {left right : Bound}
    (hle : ∀ e ∈ db, e.low ≤ e.high) (h : emptyInterval left right = true) :
    sem0 db fid left right = ∅ := by
  ext x
  simp only [sem0, mem_listUnion, Finset.not_mem_empty, iff_false, not_exists]
  rintro e ⟨he, hx⟩
  rw [mem_facetNumberRange] at he
  exact emptyInterval_no_sat h he.2.2.2.1 he.2.2.2.2 (hle e he.1)

lemma not_exact_of_emptyInterval {left right : Bound}
    (h : emptyInterval left right = true) : exactMatch left right = false := by
  cases left <;> cases right <;>
    simp [emptyInterval, exactMatch] at h ⊢
  linarith

lemma explore_emptyInterval (db : List NumEntry) (fid lvl : ℕ) {left right : Bound}
    (output : Finset ℕ) (h : emptyInterval left right = true) :
    explore_facet_number_levels db fid lvl left right output = output := by
  rw [explore_facet_number_levels.eq_def]
  have hex : ¬(exactMatch left right = true ∧ 0 < lvl) := by
    rintro ⟨hx, -⟩
    rw [not_exact_of_emptyInterval h] at hx
    exact Bool.false_ne_true hx
  rw [dif_neg hex, if_pos h]

lemma explore_zero (db : List NumEntry) (fid : ℕ) (left right : Bound)
    (output : Finset ℕ) (hle : ∀ e ∈ db, e.low ≤ e.high) :
    explore_facet_number_levels db fid 0 left right output =
      output ∪ sem0 db fid left right := by
  by_cases h : emptyInterval left right = true
  · rw [explore_emptyInterval db fid 0 output h, sem0_of_emptyInterval hle h]
    simp
  · rw [explore_facet_number_levels.eq_def]
    have hex : ¬(exactMatch left right = true ∧ 0 < 0) := by simp
    rw [dif_neg hex, if_neg h]
    simp only [listUnion_foldl]
    rfl


lemma explore_acc (db : List NumEntry) (fid : ℕ) :
    ∀ (lvl : ℕ) (left right : Bound) (output : Finset ℕ),
      explore_facet_number_levels db fid lvl left right output =
        output ∪ explore_facet_number_levels db fid lvl left right ∅ := by
  intro lvl
  induction lvl using Nat.strong_induction_on with
  | _ lvl ih =>
    intro left right output
    by_cases hx : exactMatch left right = true ∧ 0 < lvl
    · rw [explore_facet_number_levels.eq_def, dif_pos hx,
        explore_facet_number_levels.eq_def db fid lvl left right ∅, dif_pos hx]
      exact ih 0 hx.2 left right output
    · by_cases hem : emptyInterval left right = true
      · rw [explore_emptyInterval db fid lvl output hem,
          explore_emptyInterval db fid lvl ∅ hem]
        simp
      · match lvl with
        | 0 =>
          rw [explore_facet_number_levels.eq_def, dif_neg hx, if_neg hem,
            explore_facet_number_levels.eq_def db fid 0 left right ∅,
            dif_neg hx, if_neg hem]
          simp only [listUnion_foldl]
          simp
        | deeper + 1 =>
          rw [explore_facet_number_levels.eq_def, dif_neg hx, if_neg hem,
            explore_facet_number_levels.eq_def db fid (deeper+1) left right ∅,
            dif_neg hx, if_neg hem]
          simp only [listUnion_foldl]
          cases hsel : facetNumberRange db fid (deeper + 1) left right with
          | nil =>
            simp only [hsel, List.head?_nil, List.getLast?_nil, listUnion, List.foldl_nil]
            rw [ih deeper (Nat.lt_succ_self deeper) left right (output ∪ ∅)]
            simp
          | cons f t =>
            obtain ⟨lastE, hlast⟩ : ∃ y, (f :: t).getLast? = some y :=
              ⟨(f :: t).getLast (List.cons_ne_nil f t),
                List.getLast?_eq_getLast (f :: t) (List.cons_ne_nil f t)⟩
            simp only [hsel, List.head?_cons, hlast]
            by_cases hL : left ≠ Bound.included f.low <;>
              by_cases hR : right ≠ Bound.included lastE.high
            · rw [if_pos hL, if_pos hL, if_pos hR, if_pos hR]
              rw [ih deeper (Nat.lt_succ_self deeper) left (Bound.excluded f.low)
                  (output ∪ listUnion (f :: t)),
                ih deeper (Nat.lt_succ_self deeper) left (Bound.excluded f.low)
                  (∅ ∪ listUnion (f :: t))]
              rw [ih deeper (Nat.lt_succ_self deeper) (Bound.excluded lastE.high) right
                  (output ∪ listUnion (f :: t) ∪
                    explore_facet_number_levels db fid deeper left (Bound.excluded f.low) ∅),
                ih deeper (Nat.lt_succ_self deeper) (Bound.excluded lastE.high) right
                  (∅ ∪ listUnion (f :: t) ∪
                    explore_facet_number_levels db fid deeper left (Bound.excluded f.low) ∅)]
              simp [Finset.union_assoc]
            · rw [if_pos hL, if_pos hL, if_neg hR, if_neg hR]
              rw [ih deeper (Nat.lt_succ_self deeper) left (Bound.excluded f.low)
                  (output ∪ listUnion (f :: t)),
                ih deeper (Nat.lt_succ_self deeper) left (Bound.excluded f.low)
                  (∅ ∪ listUnion (f :: t))]
              simp [Finset.union_assoc]
            · rw [if_neg hL, if_neg hL, if_pos hR, if_pos hR]
              rw [ih deeper (Nat.lt_succ_self deeper) (Bound.excluded lastE.high) right
                  (output ∪ listUnion (f :: t)),
                ih deeper (Nat.lt_succ_self deeper) (Bound.excluded lastE.high) right
                  (∅ ∪ listUnion (f :: t))]
              simp [Finset.union_assoc]
            · rw [if_neg hL, if_neg hL, if_neg hR, if_neg hR]
              simp [Finset.union_assoc]


lemma keyLt_irrefl (a : NumEntry) : ¬ keyLt a a := by
  unfold keyLt
  rintro (h | ⟨-, h | ⟨-, h | ⟨-, h⟩⟩⟩) <;> exact lt_irrefl _ h

lemma sel_pairwise {db : List NumEntry} {fid lvl : ℕ} {left right : Bound}
    (hgood : GoodDB db fid) :
    (facetNumberRange db fid lvl left right).Pairwise fun a b => a.high < b.low := by
  obtain ⟨hsort, hle, -, hdisj, -, -⟩ := hgood
  have hp : (facetNumberRange db fid lvl left right).Pairwise keyLt :=
    hsort.sublist (List.filter_sublist db)
  refine hp.imp_of_mem ?_
  intro a b ha hb hab
  rw [mem_facetNumberRange] at ha hb
  obtain ⟨haDB, haf, hal, -, -⟩ := ha
  obtain ⟨hbDB, hbf, hbl, -, -⟩ := hb
  have hne : a ≠ b := by
    rintro rfl
    exact keyLt_irrefl a hab
  rcases hdisj a haDB b hbDB haf hbf (hal.trans hbl.symm) hne with hd | hd
  · exact hd
  · exfalso
    have hlowle : a.low ≤ b.low := by
      unfold keyLt at hab
      rcases hab with h | ⟨-, h | ⟨-, h | ⟨h, -⟩⟩⟩
      · omega
      · omega
      · exact le_of_lt h
      · exact le_of_eq h
    have := hle b hbDB
    linarith


lemma level_below_nonempty {db : List NumEntry} {fid : ℕ}
    (hgood : GoodDB db fid) {e : NumEntry} (he : e ∈ db) (hef : e.fid = fid)
    (hpos : 0 < e.level) :
    ∃ s ∈ db, s.fid = fid ∧ s.level = e.level - 1 ∧ e.low ≤ s.low ∧ s.high ≤ e.high := by
  obtain ⟨-, -, -, -, hcover, -⟩ := id hgood
  obtain ⟨hne, -⟩ := hcover e he hef hpos
  obtain ⟨s, hs⟩ := List.exists_mem_of_ne_nil _ hne
  rw [mem_facetNumberRange] at hs
  obtain ⟨hsDB, hsf, hsl, hsatL, hsatR⟩ := hs
  refine ⟨s, hsDB, hsf, hsl, ?_, ?_⟩
  · simpa [Bound.leftSat] using hsatL
  · simpa [Bound.rightSat] using hsatR

lemma lift_zero {db : List NumEntry} {fid : ℕ} (hgood : GoodDB db fid) :
    ∀ (m : ℕ), (∃ p ∈ db, p.fid = fid ∧ p.level = m) →
      ∀ c ∈ db, c.fid = fid → c.level = 0 →
        ∃ b ∈ db, b.fid = fid ∧ b.level = m ∧ b.low ≤ c.low ∧ c.high ≤ b.high := by
  intro m
  induction m with
  | zero =>
    rintro - c hc hcf hcl
    exact ⟨c, hc, hcf, hcl, le_refl _, le_refl _⟩
  | succ n ih =>
    rintro ⟨p, hpDB, hpf, hpl⟩ c hc hcf hcl
    have hppos : 0 < p.level := by omega
    obtain ⟨s, hsDB, hsf, hsl, -, -⟩ := level_below_nonempty hgood hpDB hpf hppos
    have hsn : s.level = n := by omega
    obtain ⟨b, hbDB, hbf, hbl, hblow, hbhigh⟩ :=
      ih ⟨s, hsDB, hsf, hsn⟩ c hc hcf hcl
    obtain ⟨-, -, -, -, -, hparent⟩ := id hgood
    obtain ⟨B, hBDB, hBf, hBl, hBlow, hBhigh⟩ :=
      hparent p hpDB hpf hppos b hbDB hbf (by omega)
    exact ⟨B, hBDB, hBf, by omega, le_trans hBlow hblow, le_trans hbhigh hBhigh⟩

lemma bucket_sem {db : List NumEntry} {fid : ℕ} (hgood : GoodDB db fid) :
    ∀ (n : ℕ), ∀ e ∈ db, e.fid = fid → e.level = n →
      e.docids = sem0 db fid (.included e.low) (.included e.high) := by
  intro n
  induction n with
  | zero =>
    intro e heDB hef hel
    obtain ⟨-, hle, hzero, hdisj, -, -⟩ := id hgood
    ext x
    rw [sem0, mem_listUnion]
    constructor
    · intro hx
      refine ⟨e, ?_, hx⟩
      rw [mem_facetNumberRange]
      exact ⟨heDB, hef, hel, by simp [Bound.leftSat], by simp [Bound.rightSat]⟩
    · rintro ⟨c, hc, hx⟩
      rw [mem_facetNumberRange] at hc
      obtain ⟨hcDB, hcf, hcl, hsatL, hsatR⟩ := hc
      have hL : e.low ≤ c.low := by simpa [Bound.leftSat] using hsatL
      have hR : c.high ≤ e.high := by simpa [Bound.rightSat] using hsatR
      by_cases hce : c = e
      · rw [hce] at hx; exact hx
      · exfalso
        have h1 := hzero e heDB hel
        have h2 := hzero c hcDB hcl
        rcases hdisj c hcDB e heDB hcf hef (by omega) hce with hd | hd <;> linarith
  | succ n ih =>
    intro e heDB hef hel
    obtain ⟨-, hle, -, hdisj, hcover, hparent⟩ := id hgood
    obtain ⟨-, hdoc⟩ := hcover e heDB hef (by omega)
    have heln : e.level - 1 = n := by omega
    rw [hdoc, heln]
    ext x
    rw [mem_listUnion, sem0, mem_listUnion]
    constructor
    · rintro ⟨s, hs, hx⟩
      rw [mem_facetNumberRange] at hs
      obtain ⟨hsDB, hsf, hsl, hsatL, hsatR⟩ := hs
      have hsL : e.low ≤ s.low := by simpa [Bound.leftSat] using hsatL
      have hsR : s.high ≤ e.high := by simpa [Bound.rightSat] using hsatR
      rw [ih s hsDB hsf hsl, sem0, mem_listUnion] at hx
      obtain ⟨c, hc, hx⟩ := hx
      rw [mem_facetNumberRange] at hc
      obtain ⟨hcDB, hcf, hcl, hcsatL, hcsatR⟩ := hc
      have hcL : s.low ≤ c.low := by simpa [Bound.leftSat] using hcsatL
      have hcR : c.high ≤ s.high := by simpa [Bound.rightSat] using hcsatR
      refine ⟨c, ?_, hx⟩
      rw [mem_facetNumberRange]
      refine ⟨hcDB, hcf, hcl, ?_, ?_⟩
      · simp only [Bound.leftSat, decide_eq_true_eq]; linarith
      · simp only [Bound.rightSat, decide_eq_true_eq]; linarith
    · rintro ⟨c, hc, hx⟩
      rw [mem_facetNumberRange] at hc
      obtain ⟨hcDB, hcf, hcl, hcsatL, hcsatR⟩ := hc
      have hcL : e.low ≤ c.low := by simpa [Bound.leftSat] using hcsatL
      have hcR : c.high ≤ e.high := by simpa [Bound.rightSat] using hcsatR
      have hnn : ∃ p ∈ db, p.fid = fid ∧ p.level = n := by
        obtain ⟨s, hsDB, hsf, hsl, -, -⟩ :=
          level_below_nonempty hgood heDB hef (by omega)
        exact ⟨s, hsDB, hsf, by omega⟩
      obtain ⟨b, hbDB, hbf, hbl, hblow, hbhigh⟩ := lift_zero hgood n hnn c hcDB hcf hcl
      obtain ⟨B, hBDB, hBf, hBl, hBlow, hBhigh⟩ :=
        hparent e heDB hef (by omega) b hbDB hbf (by omega)
      have hBe : B = e := by
        by_contra hBne
        have hch := hle c hcDB
        rcases hdisj B hBDB e heDB hBf hef (by omega) hBne with hd | hd <;> linarith
      rw [hBe] at hBlow hBhigh
      refine ⟨b, ?_, ?_⟩
      · rw [mem_facetNumberRange]
        refine ⟨hbDB, hbf, hbl, ?_, ?_⟩
        · simp only [Bound.leftSat, decide_eq_true_eq]; linarith
        · simp only [Bound.rightSat, decide_eq_true_eq]; linarith
      · rw [ih b hbDB hbf hbl, sem0, mem_listUnion]
        refine ⟨c, ?_, hx⟩
        rw [mem_facetNumberRange]
        refine ⟨hcDB, hcf, hcl, ?_, ?_⟩
        · simp only [Bound.leftSat, decide_eq_true_eq]; linarith
        · simp only [Bound.rightSat, decide_eq_true_eq]; linarith


lemma listUnion_nil : listUnion [] = ∅ := rfl

lemma sem0_split {db : List NumEntry} {fid dl : ℕ} {left right : Bound}
    {f lastE : NumEntry} {t : List NumEntry}
    (hgood : GoodDB db fid)
    (hsel : facetNumberRange db fid (dl + 1) left right = f :: t)
    (hlast : (f :: t).getLast? = some lastE) :
    listUnion (f :: t) ∪ sem0 db fid left (.excluded f.low) ∪
      sem0 db fid (.excluded lastE.high) right = sem0 db fid left right := by
  have hmemsel : ∀ s, s ∈ f :: t ↔
      (s ∈ db ∧ s.fid = fid ∧ s.level = dl + 1 ∧
        left.leftSat s.low = true ∧ right.rightSat s.high = true) := by
    intro s; rw [← hsel, mem_facetNumberRange]
  have hfsel := (hmemsel f).1 (List.mem_cons_self f t)
  have hlastmem : lastE ∈ f :: t := by
    rw [List.getLast?_eq_getLast (f :: t) (List.cons_ne_nil f t)] at hlast
    rw [← Option.some_injective _ hlast]
    exact List.getLast_mem (List.cons_ne_nil f t)
  have hlastsel := (hmemsel lastE).1 hlastmem
  have hle : ∀ e ∈ db, e.low ≤ e.high := hgood.2.1
  ext x
  simp only [Finset.mem_union]
  constructor
  · rintro ((hx1 | hx2) | hx3)
    all_goals rw [sem0, mem_listUnion]
    · rw [mem_listUnion] at hx1
      obtain ⟨s, hs, hx⟩ := hx1
      have hssel := (hmemsel s).1 hs
      rw [bucket_sem hgood (dl + 1) s hssel.1 hssel.2.1 hssel.2.2.1,
        sem0, mem_listUnion] at hx
      obtain ⟨c, hc, hx⟩ := hx
      rw [mem_facetNumberRange] at hc
      obtain ⟨hcDB, hcf, hcl, hcsatL, hcsatR⟩ := hc
      have hcL : s.low ≤ c.low := by simpa [Bound.leftSat] using hcsatL
      have hcR : c.high ≤ s.high := by simpa [Bound.rightSat] using hcsatR
      refine ⟨c, ?_, hx⟩
      rw [mem_facetNumberRange]
      exact ⟨hcDB, hcf, hcl, leftSat_mono hssel.2.2.2.1 hcL,
        rightSat_anti hssel.2.2.2.2 hcR⟩
    · rw [sem0, mem_listUnion] at hx2
      obtain ⟨c, hc, hx⟩ := hx2
      rw [mem_facetNumberRange] at hc
      obtain ⟨hcDB, hcf, hcl, hcsatL, hcsatR⟩ := hc
      have hcR : c.high < f.low := by simpa [Bound.rightSat] using hcsatR
      refine ⟨c, ?_, hx⟩
      rw [mem_facetNumberRange]
      exact ⟨hcDB, hcf, hcl, hcsatL,
        rightSat_anti hfsel.2.2.2.2 (by linarith [hle f hfsel.1])⟩
    · rw [sem0, mem_listUnion] at hx3
      obtain ⟨c, hc, hx⟩ := hx3
      rw [mem_facetNumberRange] at hc
      obtain ⟨hcDB, hcf, hcl, hcsatL, hcsatR⟩ := hc
      have hcL : lastE.high < c.low := by simpa [Bound.leftSat] using hcsatL
      refine ⟨c, ?_, hx⟩
      rw [mem_facetNumberRange]
      exact ⟨hcDB, hcf, hcl,
        leftSat_mono hlastsel.2.2.2.1 (by linarith [hle lastE hlastsel.1]), hcsatR⟩
  · intro hx
    rw [sem0, mem_listUnion] at hx
    obtain ⟨c, hc, hx⟩ := hx
    rw [mem_facetNumberRange] at hc
    obtain ⟨hcDB, hcf, hcl, hcsatL, hcsatR⟩ := hc
    by_cases h1 : c.high < f.low
    · refine Or.inl (Or.inr ?_)
      rw [sem0, mem_listUnion]
      refine ⟨c, ?_, hx⟩
      rw [mem_facetNumberRange]
      exact ⟨hcDB, hcf, hcl, hcsatL, by simpa [Bound.rightSat] using h1⟩
    by_cases h2 : lastE.high < c.low
    · refine Or.inr ?_
      rw [sem0, mem_listUnion]
      refine ⟨c, ?_, hx⟩
      rw [mem_facetNumberRange]
      exact ⟨hcDB, hcf, hcl, by simpa [Bound.leftSat] using h2, hcsatR⟩
    refine Or.inl (Or.inl ?_)
    by_cases hcin : ∃ s ∈ f :: t, s.low ≤ c.low ∧ c.high ≤ s.high
    · obtain ⟨s, hs, hsl, hsr⟩ := hcin
      have hssel := (hmemsel s).1 hs
      rw [mem_listUnion]
      refine ⟨s, hs, ?_⟩
      rw [bucket_sem hgood (dl + 1) s hssel.1 hssel.2.1 hssel.2.2.1,
        sem0, mem_listUnion]
      refine ⟨c, ?_, hx⟩
      rw [mem_facetNumberRange]
      refine ⟨hcDB, hcf, hcl, ?_, ?_⟩
      · simp only [Bound.leftSat, decide_eq_true_eq]; linarith
      · simp only [Bound.rightSat, decide_eq_true_eq]; linarith
    · exfalso
      have hnn : ∃ p ∈ db, p.fid = fid ∧ p.level = dl + 1 :=
        ⟨f, hfsel.1, hfsel.2.1, hfsel.2.2.1⟩
      obtain ⟨B, hBDB, hBf, hBl, hBlow, hBhigh⟩ :=
        lift_zero hgood (dl + 1) hnn c hcDB hcf hcl
      have hBsel : B ∈ f :: t := by
        by_cases hBfeq : B = f
        · rw [hBfeq]; exact List.mem_cons_self f t
        by_cases hBleq : B = lastE
        · rw [hBleq]; exact hlastmem
        obtain ⟨-, -, -, hdisj, -, -⟩ := id hgood
        have hfBlow : f.high < B.low := by
          rcases hdisj B hBDB f hfsel.1 hBf hfsel.2.1 (by omega) hBfeq with hd | hd
          · exfalso; linarith
          · exact hd
        have hBlasthigh : B.high < lastE.low := by
          rcases hdisj B hBDB lastE hlastsel.1 hBf hlastsel.2.1 (by omega) hBleq
            with hd | hd
          · exact hd
          · exfalso; linarith
        refine (hmemsel B).2 ⟨hBDB, hBf, hBl, ?_, ?_⟩
        · exact leftSat_mono hfsel.2.2.2.1 (by linarith [hle f hfsel.1])
        · exact rightSat_anti hlastsel.2.2.2.2 (by linarith [hle lastE hlastsel.1])
      exact hcin ⟨B, hBsel, hBlow, hBhigh⟩


lemma explore_eq_sem0 {db : List NumEntry} {fid : ℕ} (hgood : GoodDB db fid) :
    ∀ (lvl : ℕ) (left right : Bound),
      explore_facet_number_levels db fid lvl left right ∅ = sem0 db fid left right := by
  have hle : ∀ e ∈ db, e.low ≤ e.high := hgood.2.1
  intro lvl
  induction lvl using Nat.strong_induction_on with
  | _ lvl ih =>
    intro left right
    by_cases hx : exactMatch left right = true ∧ 0 < lvl
    · rw [explore_facet_number_levels.eq_def, dif_pos hx,
        explore_zero db fid left right ∅ hle]
      simp
    · by_cases hem : emptyInterval left right = true
      · rw [explore_emptyInterval db fid lvl ∅ hem, sem0_of_emptyInterval hle hem]
      · match lvl with
        | 0 => rw [explore_zero db fid left right ∅ hle]; simp
        | deeper + 1 =>
          rw [explore_facet_number_levels.eq_def, dif_neg hx, if_neg hem]
          simp only [listUnion_foldl]
          cases hsel : facetNumberRange db fid (deeper + 1) left right with
          | nil =>
            simp only [hsel, List.head?_nil, List.getLast?_nil, listUnion_nil]
            rw [show (∅ ∪ ∅ : Finset ℕ) = ∅ from by simp]
            exact ih deeper (Nat.lt_succ_self deeper) left right
          | cons f t =>
            obtain ⟨lastE, hlast⟩ : ∃ y, (f :: t).getLast? = some y :=
              ⟨_, List.getLast?_eq_getLast _ (List.cons_ne_nil f t)⟩
            simp only [hsel, List.head?_cons, hlast]
            by_cases hL : left ≠ Bound.included f.low <;>
              by_cases hR : right ≠ Bound.included lastE.high
            · rw [if_pos hL, if_pos hR,
                explore_acc db fid deeper left (Bound.excluded f.low)
                  (∅ ∪ listUnion (f :: t)),
                ih deeper (Nat.lt_succ_self deeper) left (Bound.excluded f.low),
                explore_acc db fid deeper (Bound.excluded lastE.high) right
                  (∅ ∪ listUnion (f :: t) ∪ sem0 db fid left (Bound.excluded f.low)),
                ih deeper (Nat.lt_succ_self deeper) (Bound.excluded lastE.high) right,
                ← sem0_split hgood hsel hlast]
              simp [Finset.union_assoc]
            · rw [if_pos hL, if_neg hR,
                explore_acc db fid deeper left (Bound.excluded f.low)
                  (∅ ∪ listUnion (f :: t)),
                ih deeper (Nat.lt_succ_self deeper) left (Bound.excluded f.low),
                ← sem0_split hgood hsel hlast, not_not.1 hR,
                @sem0_of_emptyInterval db fid (Bound.excluded lastE.high)
                  (Bound.included lastE.high) hle (by simp [emptyInterval])]
              simp [Finset.union_assoc]
            · rw [if_neg hL, if_pos hR,
                explore_acc db fid deeper (Bound.excluded lastE.high) right
                  (∅ ∪ listUnion (f :: t)),
                ih deeper (Nat.lt_succ_self deeper) (Bound.excluded lastE.high) right,
                ← sem0_split hgood hsel hlast, not_not.1 hL,
                @sem0_of_emptyInterval db fid (Bound.included f.low)
                  (Bound.excluded f.low) hle (by simp [emptyInterval])]
              simp [Finset.union_assoc]
            · rw [if_neg hL, if_neg hR, ← sem0_split hgood hsel hlast,
                not_not.1 hR, not_not.1 hL,
                @sem0_of_emptyInterval db fid (Bound.included f.low)
                  (Bound.excluded f.low) hle (by simp [emptyInterval]),
                @sem0_of_emptyInterval db fid (Bound.excluded lastE.high)
                  (Bound.included lastE.high) hle (by simp [emptyInterval])]
              simp [Finset.union_assoc]


/-- Claim C1: for every field, interval and starting level, the numeric range
descent accumulates the same bitmap as the same descent started at level 0,
under the pyramid invariant. -/
theorem c1_range_descent (db : List NumEntry) (fid : ℕ) (hgood : GoodDB db fid)
    (level : ℕ) (left right : Bound) (output : Finset ℕ) :
    explore_facet_number_levels db fid level left right output =
      explore_facet_number_levels db fid 0 left right output := by
  rw [explore_acc db fid level left right output,
    explore_acc db fid 0 left right output,
    explore_eq_sem0 hgood level left right, explore_eq_sem0 hgood 0 left right]

/-- Witness for C1 on a concrete two-level pyramid. -/
theorem c1_range_descent_witness :
    GoodDB db0 0 ∧
      explore_facet_number_levels db0 0 1 (.included (3 / 2)) (.included 4) ∅ =
        explore_facet_number_levels db0 0 0 (.included (3 / 2)) (.included 4) ∅ :=
  ⟨by decide,
    c1_range_descent db0 0 (by decide) 1 (.included (3 / 2)) (.included 4) ∅⟩

/-- Claim C2: on any of the four empty-interval bound shapes the descent
returns at once with the accumulator untouched; in particular a
`BETWEEN 10 AND 5` filter evaluates to the empty bitmap. -/
theorem c2_empty_interval :
    (∀ (db : List NumEntry) (fid lvl : ℕ) (left right : Bound) (output : Finset ℕ),
      emptyInterval left right = true →
        explore_facet_number_levels db fid lvl left right output = output) ∧
    (∀ (idx : Index) (fid : ℕ),
      evaluate_operator idx fid (.Between 10 5) = ∅) := by
  constructor
  · intro db fid lvl left right output h
    exact explore_emptyInterval db fid lvl output h
  · intro idx fid
    show rangeDocids idx fid (.included 10) (.included 5) = ∅
    rw [rangeDocids]
    cases biggestLevel idx.numbersDb fid with
    | none => rfl
    | some lvl =>
      exact explore_emptyInterval idx.numbersDb fid lvl ∅ (by simp [emptyInterval]; norm_num)
  
/-- Witness for C2 at concrete inputs. -/
theorem c2_empty_interval_witness :
    emptyInterval (.included 10) (.included 5) = true ∧
      explore_facet_number_levels db0 0 1 (.included 10) (.included 5) {7} = {7} ∧
      evaluate_operator emptyIndex 0 (.Between 10 5) = ∅ :=
  ⟨by decide,
    c2_empty_interval.1 db0 0 1 (.included 10) (.included 5) {7} (by decide),
    c2_empty_interval.2 emptyIndex 0⟩


/-- Counterexample for C3: double negation is not the identity on a `Between`
leaf: it rewrites `Between 1 2` into the conjunction of the two closed
half-lines instead. -/
theorem c3_counterexample :
    (FilterCondition.Operator 0 (.Between 1 2)).negate.negate =
        .And (.Operator 0 (.GreaterThanOrEqual 1)) (.Operator 0 (.LowerThanOrEqual 2)) ∧
      (FilterCondition.Operator 0 (.Between 1 2)).negate.negate ≠
        .Operator 0 (.Between 1 2) := by
  constructor
  · rfl
  · decide

/-- Claim C3 (amended): on every AST with no `Between` leaf, double negation
is the identity; a `Between` leaf negates (once) to the `Or` of
`LowerThan lo` and `GreaterThan hi`, so its double negation is an `And` of
the complementary operators, not the original leaf. -/
theorem c3_double_negation (p : FilterCondition) (hp : p.betweenFree = true) :
    p.negate.negate = p ∧
      ∀ (fid : ℕ) (lo hi : ℚ),
        (FilterCondition.Operator fid (.Between lo hi)).negate =
          .Or (.Operator fid (.LowerThan lo)) (.Operator fid (.GreaterThan hi)) := by
  refine ⟨?_, fun fid lo hi => rfl⟩
  induction p with
  | Operator fid op =>
    cases op <;> first
      | rfl
      | exact absurd hp (by simp [FilterCondition.betweenFree, Operator.isBetween])
  | Or a b iha ihb =>
    rw [FilterCondition.betweenFree, Bool.and_eq_true] at hp
    show FilterCondition.Or a.negate.negate b.negate.negate = .Or a b
    rw [iha hp.1, ihb hp.2]
  | And a b iha ihb =>
    rw [FilterCondition.betweenFree, Bool.and_eq_true] at hp
    show FilterCondition.And a.negate.negate b.negate.negate = .And a b
    rw [iha hp.1, ihb hp.2]
  | Empty => rfl


/-- Witness for C3 (amended) on a Between-free AST. -/
theorem c3_double_negation_witness :
    (FilterCondition.Or (.Operator 0 (.Equal none "a"))
        (.And (.Operator 1 (.GreaterThan 3)) .Empty)).betweenFree = true ∧
      (FilterCondition.Or (.Operator 0 (.Equal none "a"))
        (.And (.Operator 1 (.GreaterThan 3)) .Empty)).negate.negate =
        .Or (.Operator 0 (.Equal none "a"))
          (.And (.Operator 1 (.GreaterThan 3)) .Empty) :=
  ⟨by decide,
    (c3_double_negation
      (.Or (.Operator 0 (.Equal none "a"))
        (.And (.Operator 1 (.GreaterThan 3)) .Empty)) (by decide)).1⟩

/-- Claim C4: `evaluate` maps `Or` to union, `And` to intersection and
`Empty` to the empty bitmap, so `And Empty x` evaluates to the empty bitmap. -/
theorem c4_boolean_composer (idx : Index) (a b x : FilterCondition) :
    (FilterCondition.Or a b).evaluate idx = a.evaluate idx ∪ b.evaluate idx ∧
      (FilterCondition.And a b).evaluate idx = a.evaluate idx ∩ b.evaluate idx ∧
      FilterCondition.Empty.evaluate idx = ∅ ∧
      (FilterCondition.And .Empty x).evaluate idx = ∅ := by
  refine ⟨rfl, rfl, rfl, ?_⟩
  show ∅ ∩ x.evaluate idx = ∅
  simp

/-- Claim C5: `NotEqual` evaluates to the faceted universe minus the matching
`Equal`, where the numeric universe is dropped when no number was parsed. -/
theorem c5_not_equal (idx : Index) (fid : ℕ) (num : Option ℚ) (s : String) :
    evaluate_operator idx fid (.NotEqual num s) =
      ((if num.isSome then idx.numberFaceted fid else ∅) ∪
          idx.stringFaceted fid) \ evaluate_operator idx fid (.Equal num s) := rfl

/-- Claim C7: the `Includes` and `NotIncludes` scans never consult the
operator's field id (nor its numeric payload): any two field ids produce the
same bitmap. -/
theorem c7_includes_ignores_field (idx : Index) (f1 f2 : ℕ) (num : Option ℚ)
    (s : String) :
    evaluate_operator idx f1 (.Includes num s) =
        evaluate_operator idx f2 (.Includes num s) ∧
      evaluate_operator idx f1 (.NotIncludes num s) =
        evaluate_operator idx f2 (.NotIncludes num s) :=
  ⟨rfl, rfl⟩


lemma mem_includesScan {idx : Index} {val : String} {x : ℕ} :
    x ∈ includesScan idx val ↔
      ∃ e ∈ idx.stringsDb, strContains e.key (strToLower val) = true ∧ x ∈ e.docids := by
  have main : ∀ (l : List StrEntry) (init : Finset ℕ),
      x ∈ l.foldl
          (fun acc e => if strContains e.key (strToLower val) then acc ∪ e.docids else acc)
          init ↔
        x ∈ init ∨ ∃ e ∈ l, strContains e.key (strToLower val) = true ∧ x ∈ e.docids := by
    intro l
    induction l with
    | nil => simp
    | cons e t ih =>
      intro init
      rw [List.foldl_cons]
      by_cases hp : strContains e.key (strToLower val) = true
      · rw [if_pos hp, ih]
        simp only [List.mem_cons, Finset.mem_union]
        constructor
        · rintro (⟨h | h⟩ | ⟨a, ha, hc, hx⟩)
          · exact Or.inl h
          · exact Or.inr ⟨e, Or.inl rfl, hp, h⟩
          · exact Or.inr ⟨a, Or.inr ha, hc, hx⟩
        · rintro (h | ⟨a, (rfl | ha), hc, hx⟩)
          · exact Or.inl (Or.inl h)
          · exact Or.inl (Or.inr hx)
          · exact Or.inr ⟨a, ha, hc, hx⟩
      · rw [if_neg hp, ih]
        simp only [List.mem_cons]
        constructor
        · rintro (h | ⟨a, ha, hc, hx⟩)
          · exact Or.inl h
          · exact Or.inr ⟨a, Or.inr ha, hc, hx⟩
        · rintro (h | ⟨a, (rfl | ha), hc, hx⟩)
          · exact Or.inl h
          · exact absurd hc hp
          · exact Or.inr ⟨a, ha, hc, hx⟩
  rw [includesScan, main]
  simp

lemma mem_notIncludesScan {idx : Index} {val : String} {x : ℕ} :
    x ∈ notIncludesScan idx val ↔
      ∃ e ∈ idx.stringsDb, strContains e.key (strToLower val) = false ∧ x ∈ e.docids := by
  have main : ∀ (l : List StrEntry) (init : Finset ℕ),
      x ∈ l.foldl
          (fun acc e => if strContains e.key (strToLower val) then acc else acc ∪ e.docids)
          init ↔
        x ∈ init ∨ ∃ e ∈ l, strContains e.key (strToLower val) = false ∧ x ∈ e.docids := by
    intro l
    induction l with
    | nil => simp
    | cons e t ih =>
      intro init
      rw [List.foldl_cons]
      by_cases hp : strContains e.key (strToLower val) = true
      · rw [if_pos hp, ih]
        simp only [List.mem_cons]
        constructor
        · rintro (h | ⟨a, ha, hc, hx⟩)
          · exact Or.inl h
          · exact Or.inr ⟨a, Or.inr ha, hc, hx⟩
        · rintro (h | ⟨a, (rfl | ha), hc, hx⟩)
          · exact Or.inl h
          · rw [hp] at hc; exact absurd hc (by simp)
          · exact Or.inr ⟨a, ha, hc, hx⟩
      · rw [if_neg hp, ih]
        simp only [List.mem_cons, Finset.mem_union]
        constructor
        · rintro (⟨h | h⟩ | ⟨a, ha, hc, hx⟩)
          · exact Or.inl h
          · exact Or.inr ⟨e, Or.inl rfl, Bool.eq_false_iff.2 hp, h⟩
          · exact Or.inr ⟨a, Or.inr ha, hc, hx⟩
        · rintro (h | ⟨a, (rfl | ha), hc, hx⟩)
          · exact Or.inl (Or.inl h)
          · exact Or.inl (Or.inr hx)
          · exact Or.inr ⟨a, ha, hc, hx⟩
  rw [notIncludesScan, main]
  simp


/-- Counterexample for C6: a document holding two string values for the same
field, one containing the needle and one not, lands in the results of both
`Includes` and `NotIncludes`, so the two are not disjoint. -/
theorem c6_counterexample :
    1 ∈ evaluate_operator idx6 0 (.Includes none "b") ∧
      1 ∈ evaluate_operator idx6 0 (.NotIncludes none "b") := by decide

/-- Claim C6 (amended): within the set of documents having a string value for
the field, `Includes` and `NotIncludes` jointly cover everything — every such
document appears in at least one of the two results — but they need not be
disjoint: a document with several string values, one containing `s` and one
not, belongs to both. -/
theorem c6_not_includes_cover (idx : Index) (fid : ℕ) (num : Option ℚ)
    (s : String)
    (hwf : ∀ d ∈ idx.stringFaceted fid, ∃ e ∈ idx.stringsDb, e.fid = fid ∧ d ∈ e.docids) :
    idx.stringFaceted fid ⊆
      evaluate_operator idx fid (.Includes num s) ∪
        evaluate_operator idx fid (.NotIncludes num s) := by
  intro d hd
  obtain ⟨e, he, -, hde⟩ := hwf d hd
  rw [Finset.mem_union]
  by_cases hc : strContains e.key (strToLower s) = true
  · exact Or.inl (mem_includesScan.2 ⟨e, he, hc, hde⟩)
  · exact Or.inr (mem_notIncludesScan.2 ⟨e, he, Bool.eq_false_iff.2 hc, hde⟩)

/-- Witness for C6 (amended) on a concrete index. -/
theorem c6_not_includes_cover_witness :
    (∀ d ∈ idx6.stringFaceted 0, ∃ e ∈ idx6.stringsDb, e.fid = 0 ∧ d ∈ e.docids) ∧
      idx6.stringFaceted 0 ⊆
        evaluate_operator idx6 0 (.Includes none "b") ∪
          evaluate_operator idx6 0 (.NotIncludes none "b") :=
  ⟨by decide, c6_not_includes_cover idx6 0 none "b" (by decide)⟩


lemma takeWhile_lt_eq_filter (κ : GeoPoint → ℚ) (r : ℚ) :
    ∀ (l : List GeoPoint), l.Pairwise (fun p q => κ p ≤ κ q) →
      l.takeWhile (fun p => decide (κ p < r)) =
        l.filter (fun p => decide (κ p < r)) := by
  intro l
  induction l with
  | nil => intro _; rfl
  | cons p t ih =>
    intro hp
    by_cases hpr : κ p < r
    · rw [List.takeWhile_cons, List.filter_cons, if_pos (by simpa using hpr),
        if_pos (by simpa using hpr), ih hp.of_cons]
    · rw [List.takeWhile_cons, List.filter_cons, if_neg (by simpa using hpr),
        if_neg (by simpa using hpr)]
      symm
      rw [List.filter_eq_nil_iff]
      intro q hq
      have hle := List.rel_of_pairwise_cons hp hq
      simp only [decide_eq_true_eq]
      intro hqr
      exact hpr (lt_of_le_of_lt hle hqr)

/-- Claim C8: `GeoLowerThan(pt, r)` collects exactly the R-tree points at
great-circle distance strictly below `r` (given the iterator yields points in
nondecreasing distance order); with radius `0` it is empty (distances are
nonnegative); and `GeoGreaterThan(pt, r)` is the geo-faceted universe minus
`GeoLowerThan(pt, r)`. -/
theorem c8_geo (idx : Index) (fid : ℕ) (pt : ℚ × ℚ) (r : ℚ) :
    (∀ nn, idx.geoRtree = some nn →
      (nn pt).Pairwise
        (fun p q => idx.dist pt (p.lat, p.lng) ≤ idx.dist pt (q.lat, q.lng)) →
      ∀ d, d ∈ evaluate_operator idx fid (.GeoLowerThan pt r) ↔
        ∃ p ∈ nn pt, idx.dist pt (p.lat, p.lng) < r ∧ p.data = d) ∧
    ((∀ q : ℚ × ℚ, 0 ≤ idx.dist pt q) →
      evaluate_operator idx fid (.GeoLowerThan pt 0) = ∅) ∧
    evaluate_operator idx fid (.GeoGreaterThan pt r) =
      idx.geoFaceted \ evaluate_operator idx fid (.GeoLowerThan pt r) := by
  refine ⟨?_, ?_, rfl⟩
  · intro nn hnn hsort d
    show d ∈ geoLowerEval idx pt r ↔ _
    simp only [geoLowerEval, hnn]
    rw [takeWhile_lt_eq_filter (fun p => idx.dist pt (p.lat, p.lng)) r (nn pt) hsort]
    simp only [List.mem_toFinset, List.mem_map, List.mem_filter, decide_eq_true_eq]
    constructor
    · rintro ⟨p, ⟨hp, hlt⟩, hdata⟩
      exact ⟨p, hp, hlt, hdata⟩
    · rintro ⟨p, hp, hlt, hdata⟩
      exact ⟨p, ⟨hp, hlt⟩, hdata⟩
  · intro h0
    show geoLowerEval idx pt 0 = ∅
    cases hrt : idx.geoRtree with
    | none => simp [geoLowerEval, hrt]
    | some nn =>
      simp only [geoLowerEval, hrt]
      rw [Finset.eq_empty_iff_forall_not_mem]
      intro d hd
      rw [List.mem_toFinset, List.mem_map] at hd
      obtain ⟨p, hp, -⟩ := hd
      have := List.mem_takeWhile_imp hp
      simp only [decide_eq_true_eq] at this
      exact absurd this (not_lt.2 (h0 (p.lat, p.lng)))

/-- Witness for C8 on a concrete two-point R-tree. -/
theorem c8_geo_witness :
    (5 ∈ evaluate_operator idx8 0 (.GeoLowerThan (0, 0) 1)) ∧
      evaluate_operator idx8 0 (.GeoLowerThan (0, 0) 0) = ∅ ∧
      evaluate_operator idx8 0 (.GeoGreaterThan (0, 0) 1) =
        idx8.geoFaceted \ evaluate_operator idx8 0 (.GeoLowerThan (0, 0) 1) := by
  obtain ⟨h1, h2, h3⟩ := c8_geo idx8 0 (0, 0) 1
  refine ⟨?_, ?_, h3⟩
  · refine (h1 _ rfl (by decide) 5).2 ⟨⟨0, 0, 5⟩, ?_, ?_, rfl⟩
    · exact List.mem_cons_self _ _
    · show idx8.dist (0, 0) (0, 0) < 1
      decide
  · refine h2 ?_
    intro q
    show (0 : ℚ) ≤ if q = (1, 0) then 1 else 0
    split <;> norm_num


/-- Claim C9: with `_geo` filterable and mapped to a field id, building
`_geoRadius(lat, lng, r)` from three parsed arguments succeeds exactly when
the latitude lies in `[-90, 90]` and the longitude in `[-180, 180]`
(boundaries accepted); a latitude out of range raises a syntax error spanning
the latitude argument, and otherwise a longitude out of range raises a syntax
error spanning the longitude argument. -/
theorem c9_geo_radius (fim : String → Option ℕ) (ff : List String) (fid : ℕ)
    (lat lng d : ℚ) (s1 s2 s3 sp : ℕ)
    (hff : "_geo" ∈ ff) (hfid : fim "_geo" = some fid) :
    ((∃ c, FilterCondition.geo_radius fim ff [(lat, s1), (lng, s2), (d, s3)] sp =
        .ok c) ↔ ((-90 ≤ lat ∧ lat ≤ 90) ∧ (-180 ≤ lng ∧ lng ≤ 180))) ∧
    ((-90 ≤ lat ∧ lat ≤ 90) → (-180 ≤ lng ∧ lng ≤ 180) →
      FilterCondition.geo_radius fim ff [(lat, s1), (lng, s2), (d, s3)] sp =
        .ok (.Operator fid (.GeoLowerThan (lat, lng) d))) ∧
    (¬(-90 ≤ lat ∧ lat ≤ 90) →
      FilterCondition.geo_radius fim ff [(lat, s1), (lng, s2), (d, s3)] sp =
        .error (.syntaxErr latitudeMsg s1)) ∧
    ((-90 ≤ lat ∧ lat ≤ 90) → ¬(-180 ≤ lng ∧ lng ≤ 180) →
      FilterCondition.geo_radius fim ff [(lat, s1), (lng, s2), (d, s3)] sp =
        .error (.syntaxErr longitudeMsg s2)) := by
  have hred : FilterCondition.geo_radius fim ff [(lat, s1), (lng, s2), (d, s3)] sp =
      (if ¬(-90 ≤ lat ∧ lat ≤ 90) then .error (.syntaxErr latitudeMsg s1)
       else if ¬(-180 ≤ lng ∧ lng ≤ 180) then .error (.syntaxErr longitudeMsg s2)
       else .ok (.Operator fid (.GeoLowerThan (lat, lng) d))) := by
    simp only [FilterCondition.geo_radius, hfid]
    rw [if_neg (not_not_intro hff)]
  refine ⟨?_, ?_, ?_, ?_⟩
  · constructor
    · rintro ⟨c, hc⟩
      rw [hred] at hc
      by_cases h1 : -90 ≤ lat ∧ lat ≤ 90
      · by_cases h2 : -180 ≤ lng ∧ lng ≤ 180
        · exact ⟨h1, h2⟩
        · rw [if_neg (not_not_intro h1), if_pos h2] at hc
          exact Except.noConfusion hc
      · rw [if_pos h1] at hc
        exact Except.noConfusion hc
    · rintro ⟨h1, h2⟩
      rw [hred, if_neg (not_not_intro h1), if_neg (not_not_intro h2)]
      exact ⟨_, rfl⟩
  · intro h1 h2
    rw [hred, if_neg (not_not_intro h1), if_neg (not_not_intro h2)]
  · intro h1
    rw [hred, if_pos h1]
  · intro h1 h2
    rw [hred, if_neg (not_not_intro h1), if_pos h2]

/-- Witness for C9: the exact boundary values are accepted, and an
out-of-range latitude is rejected with the latitude span. -/
theorem c9_geo_radius_witness :
    ("_geo" ∈ ["_geo"] ∧ fim0 "_geo" = some 0) ∧
      FilterCondition.geo_radius fim0 ["_geo"] [(90, 1), (-180, 2), (2000, 3)] 0 =
        .ok (.Operator 0 (.GeoLowerThan (90, -180) 2000)) ∧
      FilterCondition.geo_radius fim0 ["_geo"] [(-100, 1), (150, 2), (10, 3)] 0 =
        .error (.syntaxErr latitudeMsg 1) :=
  ⟨⟨by decide, rfl⟩,
    (c9_geo_radius fim0 ["_geo"] 0 90 (-180) 2000 1 2 3 0 (by decide) rfl).2.1
      (by norm_num) (by norm_num),
    (c9_geo_radius fim0 ["_geo"] 0 (-100) 150 10 1 2 3 0 (by decide) rfl).2.2.1
      (by norm_num)⟩


/-- Counterexample for C10: a leaf condition whose key is the reserved word
`_geo` (not in the filterable set, which is empty here) fails with
`ReservedKeyword`, not with `InvalidAttribute`. -/
theorem c10_counterexample :
    FilterCondition.equal fimNone [] ⟨"_geo", .reserved⟩ none "12" =
        .error (.reservedKeyword "_geo" (some geoHint)) ∧
      FilterCondition.equal fimNone [] ⟨"_geo", .reserved⟩ none "12" ≠
        .error (.invalidAttribute "_geo" []) := by
  refine ⟨rfl, ?_⟩
  intro h
  rw [show FilterCondition.equal fimNone [] ⟨"_geo", .reserved⟩ none "12" =
      .error (.reservedKeyword "_geo" (some geoHint)) from rfl] at h
  exact FError.noConfusion (Except.error.inj h)

/-- Claim C10 (amended): for every leaf condition whose field key is not a
reserved keyword, a key outside the filterable-fields set fails with
`InvalidAttribute` carrying the key and the valid fields, and a key in the
set but unknown to the fields-ids map builds the `Empty` node without error. -/
theorem c10_field_resolution (fim : String → Option ℕ) (ff : List String)
    (key : KeyTok) (num : Option ℚ) (sval : String)
    (hrule : key.rule = KeyRule.value) :
    (key.str ∉ ff →
      field_id fim ff key = .error (.invalidAttribute key.str ff) ∧
        FilterCondition.equal fim ff key num sval =
          .error (.invalidAttribute key.str ff)) ∧
    (key.str ∈ ff → fim key.str = none →
      field_id fim ff key = .ok none ∧
        FilterCondition.equal fim ff key num sval = .ok .Empty) := by
  have hnotres : ¬(key.rule = KeyRule.reserved) := by
    rw [hrule]
    intro h
    exact KeyRule.noConfusion h
  constructor
  · intro hnot
    have h1 : field_id fim ff key = .error (.invalidAttribute key.str ff) := by
      rw [field_id, if_neg hnotres, if_pos hnot]
    exact ⟨h1, by rw [FilterCondition.equal, h1]⟩
  · intro hin hnone
    have h1 : field_id fim ff key = .ok none := by
      rw [field_id, if_neg hnotres, if_neg (not_not_intro hin), hnone]
    exact ⟨h1, by rw [FilterCondition.equal, h1]⟩

/-- Witness for C10 (amended) at concrete inputs. -/
theorem c10_field_resolution_witness :
    ("chan" ∉ ["channel"] ∧
      FilterCondition.equal fimNone ["channel"] ⟨"chan", .value⟩ none "x" =
        .error (.invalidAttribute "chan" ["channel"])) ∧
    ("channel" ∈ ["channel"] ∧ fimNone "channel" = none ∧
      FilterCondition.equal fimNone ["channel"] ⟨"channel", .value⟩ none "x" =
        .ok .Empty) :=
  ⟨⟨by decide,
    ((c10_field_resolution fimNone ["channel"] ⟨"chan", .value⟩ none "x" rfl).1
      (by decide)).2⟩,
   ⟨by decide, rfl,
    ((c10_field_resolution fimNone ["channel"] ⟨"channel", .value⟩ none "x" rfl).2
      (by decide) rfl).2⟩⟩

end Milli
